import Mathlib

/-!
Verification development for the pull-request diff reconstruction and
inline-comment anchoring subsystem of the AzureDevOps-MCP repository
(src/Services/GitService.ts and src/utils/repositoryResolver.ts).

The TypeScript functions are shallowly embedded as executable Lean
definitions: strings are Lean `String`s, line arrays are `List String`,
JS array indexing under a bounds check becomes `List.getD` with default
`""`, and the `while` loops of `findMeaningfulChanges` become fuel-indexed
structural recursions (the fuel is shown sufficient below).
-/

/-- The whitespace characters matched by the JavaScript `\s` class and
`String.prototype.trim`, restricted to the ASCII range (the repository's
diff logic only ever feeds it source-code text). -/
def isJsWhitespace (c : Char) : Bool :=
  c == ' ' || c == '\t' || c == '\n' || c == '\r' || c == '\x0b' || c == '\x0c'

/-- JavaScript `String.prototype.trim`: drop leading and trailing whitespace. -/
def trimChars (l : List Char) : List Char :=
  ((l.dropWhile isJsWhitespace).reverse.dropWhile isJsWhitespace).reverse

/-- JavaScript `replace(/\s+/g, ' ')`: collapse every maximal whitespace run to one space.
The boolean argument records whether the previous character was whitespace. -/
def collapseWsAux : Bool → List Char → List Char
  | _, [] => []
  | prevWs, c :: rest =>
    if isJsWhitespace c then
      if prevWs then collapseWsAux true rest
      else ' ' :: collapseWsAux true rest
    else c :: collapseWsAux false rest

/-- GitService.normalizeLineForComparison:
`line.trim().replace(/\s+/g, ' ')`. -/
def normalizeLineForComparison (line : String) : String :=
  String.mk (collapseWsAux false (trimChars line.data))

/-- JavaScript `s.split(sep)` for a single-character separator (always
returns at least one piece; `''.split(sep)` is `['']`). -/
def splitOnCharAux (sep : Char) : List Char → List Char → List String
  | [], acc => [String.mk acc.reverse]
  | c :: rest, acc =>
    if c = sep then String.mk acc.reverse :: splitOnCharAux sep rest []
    else splitOnCharAux sep rest (c :: acc)

/-- Split a blob's text content on newline boundaries, as `split('\n')`. -/
def splitLines (s : String) : List String :=
  splitOnCharAux '\n' s.data []

/-- The `type` field of the change objects pushed by findMeaningfulChanges. -/
inductive ChangeKind
  | added
  | removed
  | modified
deriving DecidableEq, Repr

/-- One change object pushed by GitService.findMeaningfulChanges
(an AlignmentSegment in the spec's data model): 1-based inclusive
line ranges in the original and current sequences plus the
human-readable description string. -/
structure Change where
  type : ChangeKind
  originalStart : Nat
  originalEnd : Nat
  currentStart : Nat
  currentEnd : Nat
  description : String
deriving DecidableEq, Repr

/-- The guarded comparison used throughout findMeaningfulChanges:
both indices in bounds and the two lines equal after normalization. -/
def linesMatch (ol cl : List String) (oi ci : Nat) : Bool :=
  decide (oi < ol.length ∧ ci < cl.length ∧
    normalizeLineForComparison (ol.getD oi "") =
      normalizeLineForComparison (cl.getD ci ""))

/-- The inner skip loop of findMeaningfulChanges ("Skip identical lines"),
with fuel `ol.length - oi`, which bounds the number of possible steps. -/
def skipIdenticalAux (ol cl : List String) : Nat → Nat → Nat → Nat × Nat
  | 0, oi, ci => (oi, ci)
  | fuel + 1, oi, ci =>
    if linesMatch ol cl oi ci then skipIdenticalAux ol cl fuel (oi + 1) (ci + 1)
    else (oi, ci)

/-- Advance both cursors while the normalized lines at both cursors match. -/
def skipIdentical (ol cl : List String) (oi ci : Nat) : Nat × Nat :=
  skipIdenticalAux ol cl (ol.length - oi) oi ci

/-- The inner loop of the look-ahead: scan `origOffset` upward inside one
`ahead` level, returning the first `(origOffset, currOffset)` whose lines
match; `remaining` is `ahead + 1 - origOffset`, the candidates left. -/
def findMatchAtLevel (ol cl : List String) (oi ci ahead : Nat) :
    Nat → Nat → Option (Nat × Nat)
  | 0, _ => none
  | remaining + 1, origOffset =>
    if linesMatch ol cl (oi + origOffset) (ci + (ahead - origOffset)) then
      some (origOffset, ahead - origOffset)
    else findMatchAtLevel ol cl oi ci ahead remaining (origOffset + 1)

/-- The outer loop of the look-ahead: scan the levels `ahead = 1, 2, ...`,
`remaining` many of them, returning the first level's first match. -/
def searchLevels (ol cl : List String) (oi ci : Nat) :
    Nat → Nat → Option (Nat × Nat)
  | 0, _ => none
  | remaining + 1, ahead =>
    match findMatchAtLevel ol cl oi ci ahead (ahead + 1) 0 with
    | some r => some r
    | none => searchLevels ol cl oi ci remaining (ahead + 1)

/-- The `let lookAhead = 5` bound: look ahead up to 5 combined line-offsets. -/
def lookAheadLimit : Nat := 5

/-- The bounded look-ahead of findMeaningfulChanges: levels 1..5, each
scanned with increasing original-side offset; first match wins. -/
def lookAheadSearch (ol cl : List String) (oi ci : Nat) : Option (Nat × Nat) :=
  searchLevels ol cl oi ci lookAheadLimit 1

/-- The outer `while` loop of GitService.findMeaningfulChanges, fuel-indexed.
Each iteration: skip identical lines, stop when both sequences are
exhausted, otherwise look ahead for a re-synchronization point and emit an
added/removed/modified change, or emit one final change and stop.
Returns `none` only when the fuel runs out (shown impossible below for
fuel `ol.length + cl.length + 1`). -/
def fmcLoop (ol cl : List String) : Nat → Nat → Nat → Option (List Change)
  | 0, _, _ => none
  | fuel + 1, oi0, ci0 =>
    if oi0 < ol.length ∨ ci0 < cl.length then
      let p := skipIdentical ol cl oi0 ci0
      let oi := p.1
      let ci := p.2
      if ol.length ≤ oi ∧ cl.length ≤ ci then some []
      else
        match lookAheadSearch ol cl oi ci with
        | some (origOffset, currOffset) =>
          if origOffset = 0 ∧ 0 < currOffset then
            Option.map
              (fun rest =>
                ⟨ChangeKind.added, oi + 1, oi + 1, ci + 1, ci + currOffset,
                  "Added " ++ toString currOffset ++ " lines"⟩ :: rest)
              (fmcLoop ol cl fuel oi (ci + currOffset))
          else if 0 < origOffset ∧ currOffset = 0 then
            Option.map
              (fun rest =>
                ⟨ChangeKind.removed, oi + 1, oi + origOffset, ci + 1, ci + 1,
                  "Removed " ++ toString origOffset ++ " lines"⟩ :: rest)
              (fmcLoop ol cl fuel (oi + origOffset) ci)
          else if 0 < origOffset ∧ 0 < currOffset then
            Option.map
              (fun rest =>
                ⟨ChangeKind.modified, oi + 1, oi + origOffset, ci + 1, ci + currOffset,
                  "Modified " ++ toString (max origOffset currOffset) ++ " lines"⟩ :: rest)
              (fmcLoop ol cl fuel (oi + origOffset) (ci + currOffset))
          else
            fmcLoop ol cl fuel oi ci
        | none =>
          if oi < ol.length ∧ ci < cl.length then
            some [⟨ChangeKind.modified, oi + 1, ol.length, ci + 1, cl.length,
              "Modified remaining lines (" ++ toString (ol.length - oi) ++ " → " ++
                toString (cl.length - ci) ++ ")"⟩]
          else if oi < ol.length then
            some [⟨ChangeKind.removed, oi + 1, ol.length, ci + 1, ci + 1,
              "Removed " ++ toString (ol.length - oi) ++ " lines"⟩]
          else if ci < cl.length then
            some [⟨ChangeKind.added, oi + 1, oi + 1, ci + 1, cl.length,
              "Added " ++ toString (cl.length - ci) ++ " lines"⟩]
          else
            fmcLoop ol cl fuel oi ci
    else some []

/-- findMeaningfulChanges run with fuel `ol.length + cl.length + 1`
(sufficient: every loop iteration advances a cursor or stops). -/
def findMeaningfulChangesOpt (ol cl : List String) : Option (List Change) :=
  fmcLoop ol cl (ol.length + cl.length + 1) 0 0

/-- GitService.findMeaningfulChanges: the list of meaningful changes between
two line sequences. -/
def findMeaningfulChanges (ol cl : List String) : List Change :=
  (findMeaningfulChangesOpt ol cl).getD []

/-- The hunk header `@@ -origStart,origCount +currStart,currCount @@`. -/
def hunkHeader (c : Change) : String :=
  "@@ -" ++ toString c.originalStart ++ "," ++
    toString (c.originalEnd - c.originalStart + 1) ++
  " +" ++ toString c.currentStart ++ "," ++
    toString (c.currentEnd - c.currentStart + 1) ++ " @@"

/-- The "Add context before" loop of calculateUnifiedDiff:
indices `hunkStart - 1` up to `originalStart - 2`, bounds-guarded. -/
def contextBefore (originalLines : List String) (c : Change) : List String :=
  let hunkStart := max 1 (c.originalStart - 3)
  (List.range (c.originalStart - hunkStart)).filterMap
    (fun j =>
      if hunkStart - 1 + j < originalLines.length then
        some (" " ++ originalLines.getD (hunkStart - 1 + j) "")
      else none)

/-- The "Add the actual changes" switch of calculateUnifiedDiff:
removed lines prefixed `-`, added lines prefixed `+`. -/
def changeBody (originalLines currentLines : List String) (c : Change) :
    List String :=
  let removedPart :=
    (List.range (c.originalEnd - (c.originalStart - 1))).map
      (fun j => "-" ++ originalLines.getD (c.originalStart - 1 + j) "")
  let addedPart :=
    (List.range (c.currentEnd - (c.currentStart - 1))).map
      (fun j => "+" ++ currentLines.getD (c.currentStart - 1 + j) "")
  match c.type with
  | ChangeKind.modified => removedPart ++ addedPart
  | ChangeKind.added => addedPart
  | ChangeKind.removed => removedPart

/-- The "Add context after" loop of calculateUnifiedDiff: indices
`originalEnd` up to `min (originalEnd + 3) length - 1`. -/
def contextAfter (originalLines : List String) (c : Change) : List String :=
  (List.range (min (c.originalEnd + 3) originalLines.length - c.originalEnd)).map
    (fun j => " " ++ originalLines.getD (c.originalEnd + j) "")

/-- One rendered hunk: header, context before, changed lines, context after. -/
def renderHunk (originalLines currentLines : List String) (c : Change) :
    List String :=
  hunkHeader c :: (contextBefore originalLines c ++
    changeBody originalLines currentLines c ++ contextAfter originalLines c)

/-- All hunks, with an empty separator line between consecutive hunks. -/
def renderHunks (originalLines currentLines : List String) :
    List Change → List String
  | [] => []
  | [c] => renderHunk originalLines currentLines c
  | c :: c2 :: rest =>
    renderHunk originalLines currentLines c ++ [""] ++
      renderHunks originalLines currentLines (c2 :: rest)

/-- GitService.calculateUnifiedDiff: split both contents on newlines, find
the meaningful changes, and render them as unified-diff hunks; with no
changes, emit a single whole-file hunk annotated as having no meaningful
differences. -/
def calculateUnifiedDiff (originalContent currentContent filePath : String) :
    String :=
  let originalLines := splitLines originalContent
  let currentLines := splitLines currentContent
  let changes := findMeaningfulChanges originalLines currentLines
  let header := ["--- a" ++ filePath, "+++ b" ++ filePath]
  if changes.length = 0 then
    "\n".intercalate (header ++
      ["@@ -1," ++ toString originalLines.length ++ " +1," ++
        toString currentLines.length ++ " @@",
       " (No meaningful differences found - likely formatting changes)"])
  else
    "\n".intercalate (header ++ renderHunks originalLines currentLines changes)

/-- JavaScript `s.padStart(n, ' ')`. -/
def padStart (s : String) (n : Nat) : String :=
  if s.length < n then String.mk (List.replicate (n - s.length) ' ') ++ s
  else s

/-- One numbered line of calculateAddedFileDiff:
`+{lineNumber padded to 4}: {line}  [← {lineNumber}, right]`. -/
def addedLineEntry (lineNumber : Nat) (line : String) : String :=
  "+" ++ padStart (toString lineNumber) 4 ++ ": " ++ line ++
    "  [← " ++ toString lineNumber ++ ", right]"

/-- One numbered line of calculateDeletedFileDiff:
`-{lineNumber padded to 4}: {line}  [← {lineNumber}, left]`. -/
def deletedLineEntry (lineNumber : Nat) (line : String) : String :=
  "-" ++ padStart (toString lineNumber) 4 ++ ": " ++ line ++
    "  [← " ++ toString lineNumber ++ ", left]"

/-- A `forEach((line, index) => ...)` numbering lines from `start`:
the j-th output is `mk (start + j) line_j`. -/
def numberLines (mk : Nat → String → String) (start : Nat) :
    List String → List String
  | [] => []
  | l :: rest => mk start l :: numberLines mk (start + 1) rest

/-- Header lines pushed by calculateAddedFileDiff before the content. -/
def addedDiffHeader (n : Nat) (filePath : String) : List String :=
  ["--- /dev/null", "+++ b" ++ filePath,
   "@@ -0,0 +1," ++ toString n ++ " @@",
   "📄 NEW FILE (" ++ toString n ++ " lines)",
   "💬 INLINE COMMENT LINES: 1 to " ++ toString n ++ " (any line can be commented)",
   ""]

/-- Footer lines pushed by calculateAddedFileDiff after the content. -/
def addedDiffFooter (n : Nat) : List String :=
  ["",
   "📝 **Usage:** addPullRequestInlineComment with position.line = 1 to " ++ toString n,
   "💬 **Tip:** All lines in new files can be commented on!"]

/-- The diffLines array built by GitService.calculateAddedFileDiff for a
non-empty lines array: header, numbered all-added content (truncated to the
first 50 and last 10 lines with a hidden-range summary when the file
exceeds 250 lines), footer. -/
def calculateAddedFileDiffLines (lines : List String) (filePath : String) :
    List String :=
  let maxLinesToShow := 250
  let body :=
    if maxLinesToShow < lines.length then
      let firstLines := lines.take 50
      let lastLines := lines.drop (lines.length - 10)
      let hiddenLineCount := lines.length - firstLines.length - lastLines.length
      numberLines addedLineEntry 1 firstLines ++
      (if 0 < hiddenLineCount then
        ["+... (" ++ toString hiddenLineCount ++ " more lines: " ++
          toString (firstLines.length + 1) ++ "-" ++
          toString (lines.length - lastLines.length) ++ ", all commentable) ..."]
      else []) ++
      numberLines addedLineEntry (lines.length - lastLines.length + 1) lastLines
    else
      numberLines addedLineEntry 1 lines
  addedDiffHeader lines.length filePath ++ body ++ addedDiffFooter lines.length

/-- GitService.calculateAddedFileDiff: render whole-file content as
all-added, with the (unreachable, see below) empty-array branch kept
faithful to the source. -/
def calculateAddedFileDiff (content filePath : String) : String :=
  let lines := splitLines content
  if lines.length = 0 then
    "--- /dev/null\n+++ b" ++ filePath ++
      "\n@@ -0,0 +1,0 @@\n📄 NEW FILE (Empty)\n\n💬 INLINE COMMENT LINES: None (empty file)"
  else
    "\n".intercalate (calculateAddedFileDiffLines lines filePath)

/-- Header lines pushed by calculateDeletedFileDiff before the content. -/
def deletedDiffHeader (n : Nat) (filePath : String) : List String :=
  ["--- a" ++ filePath, "+++ /dev/null",
   "@@ -1," ++ toString n ++ " +0,0 @@",
   "🗑️ DELETED FILE (" ++ toString n ++ " lines removed)",
   "💬 INLINE COMMENT LINES: 1 to " ++ toString n ++ " (comment on deleted content)",
   ""]

/-- Footer lines pushed by calculateDeletedFileDiff after the content. -/
def deletedDiffFooter (n : Nat) : List String :=
  ["",
   "📝 **Usage:** addPullRequestInlineComment with position.line = 1 to " ++
     toString n ++ " (original line numbers)",
   "💬 **Tip:** Comment on the original content before it was deleted!"]

/-- The diffLines array built by GitService.calculateDeletedFileDiff for a
non-empty lines array (size threshold 100, truncation to first 50 and
last 10 lines with a hidden-range summary). -/
def calculateDeletedFileDiffLines (lines : List String) (filePath : String) :
    List String :=
  let maxLinesToShow := 100
  let body :=
    if maxLinesToShow < lines.length then
      let firstLines := lines.take 50
      let lastLines := lines.drop (lines.length - 10)
      let hiddenLineCount := lines.length - firstLines.length - lastLines.length
      numberLines deletedLineEntry 1 firstLines ++
      (if 0 < hiddenLineCount then
        ["-... (" ++ toString hiddenLineCount ++ " more deleted lines: " ++
          toString (firstLines.length + 1) ++ "-" ++
          toString (lines.length - lastLines.length) ++ ", all commentable) ..."]
      else []) ++
      numberLines deletedLineEntry (lines.length - lastLines.length + 1) lastLines
    else
      numberLines deletedLineEntry 1 lines
  deletedDiffHeader lines.length filePath ++ body ++ deletedDiffFooter lines.length

/-- GitService.calculateDeletedFileDiff: render whole-file content as
all-removed, with the (unreachable) empty-array branch kept faithful. -/
def calculateDeletedFileDiff (content filePath : String) : String :=
  let lines := splitLines content
  if lines.length = 0 then
    "--- a" ++ filePath ++
      "\n+++ /dev/null\n@@ -1,0 +0,0 @@\n🗑️ DELETED FILE (Empty)\n\n💬 INLINE COMMENT LINES: None (empty file was deleted)"
  else
    "\n".intercalate (calculateDeletedFileDiffLines lines filePath)

namespace VersionControlChangeType

/-- azure-devops-node-api VersionControlChangeType.Add. -/
def Add : Nat := 1

/-- azure-devops-node-api VersionControlChangeType.Edit. -/
def Edit : Nat := 2

/-- azure-devops-node-api VersionControlChangeType.Delete. -/
def Delete : Nat := 16

end VersionControlChangeType

/-- A left/right file position `{line, offset}` of a comment thread anchor. -/
structure FilePosition where
  line : Int
  offset : Int
deriving DecidableEq, Repr

/-- The threadContext object built by addPullRequestInlineComment:
file path plus optional left (original version) and right (current
version) start/end positions; `none` models the JavaScript `null`. -/
structure ThreadContext where
  filePath : String
  leftFileStart : Option FilePosition
  leftFileEnd : Option FilePosition
  rightFileStart : Option FilePosition
  rightFileEnd : Option FilePosition
deriving DecidableEq, Repr

/-- The "Determine thread context based on change type" block of
GitService.addPullRequestInlineComment: Added files get right positions
only, Deleted files left positions only, every other change type
(including Edit/Modified) right positions only. -/
def buildInlineCommentThreadContext (changeType : Nat) (path : String)
    (line offset : Int) : ThreadContext :=
  if changeType = VersionControlChangeType.Add then
    { filePath := path, leftFileStart := none, leftFileEnd := none,
      rightFileStart := some ⟨line, offset⟩,
      rightFileEnd := some ⟨line, offset + 1⟩ }
  else if changeType = VersionControlChangeType.Delete then
    { filePath := path, leftFileStart := some ⟨line, offset⟩,
      leftFileEnd := some ⟨line, offset + 1⟩,
      rightFileStart := none, rightFileEnd := none }
  else
    { filePath := path, leftFileStart := none, leftFileEnd := none,
      rightFileStart := some ⟨line, offset⟩,
      rightFileEnd := some ⟨line, offset + 1⟩ }

/-- ASCII hexadecimal digit, as matched by `[a-f0-9]` with the `i` flag. -/
def isHexDigit (c : Char) : Bool :=
  c.isDigit || ('a' ≤ c && c ≤ 'f') || ('A' ≤ c && c ≤ 'F')

/-- repositoryResolver.isRepositoryId: the value matches the GUID pattern
`^[a-f0-9]{8}-[a-f0-9]{4}-[a-f0-9]{4}-[a-f0-9]{4}-[a-f0-9]{12}$/i`
(so an empty or non-GUID string is a repository name). -/
def isRepositoryId (value : String) : Bool :=
  let parts := splitOnCharAux '-' value.data []
  parts.length = 5 &&
    (parts.map String.length == [8, 4, 4, 4, 12]) &&
    parts.all (fun p => p.data.all isHexDigit)

/-- JavaScript `toLowerCase` on the ASCII range. -/
def toLowerStr (s : String) : String :=
  String.mk (s.data.map Char.toLower)

/-- One repository returned by listRepositories: `name` may be missing. -/
structure RepoInfo where
  name : Option String
  id : String
deriving DecidableEq, Repr

/-- The find predicate of resolveRepositoryId:
`repo.name && repo.name.toLowerCase() === repository.toLowerCase()`
(a missing or empty name is falsy and never matches). -/
def repoNameMatches (repository : String) (r : RepoInfo) : Bool :=
  match r.name with
  | some n => (n != "") && (toLowerStr n == toLowerStr repository)
  | none => false

/-- GitService.resolveRepositoryId, with its environment made explicit:
the repository-identifier cache (association list keyed by
`project ++ ":" ++ name`), the repositories that listRepositories returns
for the project scope, the resolved project scope, and the requested
identifier. GUID-shaped identifiers are returned unchanged; otherwise the
cache is consulted, then a case-insensitive name match; with no match the
call fails with the not-found error enumerating the available names. -/
def resolveRepositoryId (cache : List (String × String)) (repos : List RepoInfo)
    (project repository : String) : Except String String :=
  if isRepositoryId repository then Except.ok repository
  else
    let cacheKey := project ++ ":" ++ repository
    match cache.find? (fun p => p.1 == cacheKey) with
    | some entry => Except.ok entry.2
    | none =>
      match repos.find? (repoNameMatches repository) with
      | some matchedRepo => Except.ok matchedRepo.id
      | none =>
        Except.error ("Repository '" ++ repository ++ "' not found in project '" ++
          project ++ "'. Available repositories: " ++
          ", ".intercalate (repos.map (fun r => r.name.getD "")))

/-- Numeric value of a digit run (the `parseInt` of a `\d+` capture). -/
def digitsVal (ds : List Char) : Nat :=
  ds.foldl (fun n c => n * 10 + (c.toNat - 48)) 0

/-- The optional `(?:,(\d+))?` group after a hunk-header number: consume a
comma followed by digits when present. -/
def skipOptComma (l : List Char) : List Char :=
  match l with
  | ',' :: rest =>
    if (rest.takeWhile Char.isDigit).isEmpty then ',' :: rest
    else rest.dropWhile Char.isDigit
  | _ => l

/-- The hunk-header regex
`/@@ -(\d+)(?:,(\d+))? \+(\d+)(?:,(\d+))? @@/` of addInlineCommentGuidance,
applied to a line that starts with the pattern (the code only runs it on
lines starting with `@@`); returns the first and third captures. -/
def parseHunkHeader (line : String) : Option (Nat × Nat) :=
  let l := line.data
  if l.take 4 = "@@ -".data then
    let r := l.drop 4
    let d1 := r.takeWhile Char.isDigit
    if d1.isEmpty then none
    else
      match skipOptComma (r.dropWhile Char.isDigit) with
      | ' ' :: '+' :: r2 =>
        let d3 := r2.takeWhile Char.isDigit
        if d3.isEmpty then none
        else
          match skipOptComma (r2.dropWhile Char.isDigit) with
          | ' ' :: '@' :: '@' :: _ => some (digitsVal d1, digitsVal d3)
          | _ => none
      | _ => none
  else none

/-- One step of the guidance loop of addInlineCommentGuidance: state is
`(leftLineNumber, rightLineNumber, inHunk)`; returns the new state and the
lines pushed for this input line. -/
def guidanceStep (state : Nat × Nat × Bool) (line : String) :
    (Nat × Nat × Bool) × List String :=
  let leftLineNumber := state.1
  let rightLineNumber := state.2.1
  let inHunk := state.2.2
  if line.startsWith "@@" then
    match parseHunkHeader line with
    | some lr => ((lr.1, lr.2, true), [line, "⬇️ Lines below can be commented on:"])
    | none =>
      ((leftLineNumber, rightLineNumber, inHunk),
        [line, "⬇️ Lines below can be commented on:"])
  else if line.startsWith "+" && !line.startsWith "+++" then
    ((leftLineNumber, rightLineNumber + 1, inHunk),
      [line ++ "  [← " ++ toString rightLineNumber ++ ", right]"])
  else if line.startsWith "-" && !line.startsWith "---" then
    ((leftLineNumber + 1, rightLineNumber, inHunk),
      [line ++ "  [← " ++ toString leftLineNumber ++ ", left]"])
  else if line.startsWith " " && inHunk then
    ((leftLineNumber + 1, rightLineNumber + 1, inHunk),
      [line ++ "  [← " ++ toString rightLineNumber ++ ", right]"])
  else
    ((leftLineNumber, rightLineNumber, inHunk), [line])

/-- The guidance loop over all diff lines, threading the state. -/
def guidanceLines (state : Nat × Nat × Bool) : List String → List String
  | [] => []
  | line :: rest =>
    let step := guidanceStep state line
    step.2 ++ guidanceLines step.1 rest

/-- GitService.addInlineCommentGuidance: wrap a rendered diff with
change-type-specific guidance and annotate every hunk line with the file
line number it corresponds to. -/
def addInlineCommentGuidance (diffContent : String) (changeType : Nat) :
    String :=
  let lines := splitLines diffContent
  let headerLines :=
    if changeType = VersionControlChangeType.Add then
      ["📄 NEW FILE - All lines available for inline comments",
       "💬 Use line numbers 1, 2, 3... etc. for addPullRequestInlineComment"]
    else if changeType = VersionControlChangeType.Delete then
      ["🗑️ DELETED FILE - Original line numbers available for comments",
       "💬 Use original line numbers from deleted content for addPullRequestInlineComment"]
    else
      ["📝 MODIFIED FILE - Both original (left) and new (right) lines available for comments",
       "💬 Look for [← line, left] and [← line, right] markers for addPullRequestInlineComment"]
  let footerLines :=
    [""] ++
    (if changeType = VersionControlChangeType.Add then
      ["📝 **Usage:** Any line number from 1 to total lines can be used for inline comments"]
    else if changeType = VersionControlChangeType.Delete then
      ["📝 **Usage:** Use original line numbers for commenting on deleted content"]
    else
      ["📝 **Usage:** Look for [← line, left] or [← line, right] markers above for valid line numbers",
       "💡 **Left numbers:** Comment on original content (what was removed)",
       "💡 **Right numbers:** Comment on new content (what was added or unchanged)"]) ++
    ["💬 **Format:** addPullRequestInlineComment(position: \x7bline: X, offset: 1\x7d)"]
  "\n".intercalate (headerLines ++ [""] ++ guidanceLines (1, 1, false) lines ++
    footerLines)

/-- How one getBlobContent call turns out. `content` is a successful read
(buffer, string or fully consumed stream); `apiError` is a rejection of the
awaited API call, which the try/catch inside getFileContentByObjectId
swallows; `streamError` is a rejection of the returned stream promise
(timeout or read error), which escapes getFileContentByObjectId because
the promise is returned without being awaited inside the try block. -/
inductive FetchOutcome
  | content (s : String)
  | apiError (e : String)
  | streamError (e : String)
deriving DecidableEq, Repr

/-- GitService.getFileContentByObjectId as a function of the fetch outcome:
successful reads pass through, API errors degrade to the
`[Content not available]` placeholder, stream rejections propagate. -/
def getFileContentByObjectId (outcome : FetchOutcome) : Except String String :=
  match outcome with
  | FetchOutcome.content s => Except.ok s
  | FetchOutcome.apiError _ => Except.ok "[Content not available]"
  | FetchOutcome.streamError e => Except.error e

/-- One entry of changes.changeEntries, restricted to the fields the batch
diff-rendering loop reads. -/
structure ChangeEntry where
  path : String
  changeType : Nat
  originalObjectId : Option String
  objectId : Option String
deriving DecidableEq, Repr

/-- A change entry enhanced with its rendered diffContent. -/
structure EnhancedChange where
  entry : ChangeEntry
  diffContent : String
deriving DecidableEq, Repr

/-- The per-change body of the `Promise.all(...map(...))` in
getPullRequestFileChanges: fetch the one or two blob versions (`fetch`
maps an object id to its outcome), render the appropriate diff, and
degrade any propagated fetch failure to a placeholder diffContent for
this change only. -/
def enhanceChange (fetch : String → FetchOutcome) (change : ChangeEntry) :
    EnhancedChange :=
  let diffContent :=
    if change.changeType = 2 ∧ change.originalObjectId.isSome ∧
        change.objectId.isSome then
      match getFileContentByObjectId (fetch (change.originalObjectId.getD "")),
            getFileContentByObjectId (fetch (change.objectId.getD "")) with
      | Except.ok originalContent, Except.ok currentContent =>
        addInlineCommentGuidance
          (calculateUnifiedDiff originalContent currentContent change.path)
          change.changeType
      | _, _ => "[Diff not available]"
    else if change.changeType = 1 ∧ change.objectId.isSome then
      match getFileContentByObjectId (fetch (change.objectId.getD "")) with
      | Except.ok newContent => calculateAddedFileDiff newContent change.path
      | Except.error _ => "[Content not available]"
    else if change.changeType = 3 ∧ change.originalObjectId.isSome then
      match getFileContentByObjectId (fetch (change.originalObjectId.getD "")) with
      | Except.ok originalContent =>
        calculateDeletedFileDiff originalContent change.path
      | Except.error _ => "[Content not available]"
    else ""
  ⟨change, diffContent⟩

/-- The whole `Promise.all` batch: every processed change entry is enhanced
independently; order is preserved and no entry is dropped. -/
def enhancePullRequestChanges (fetch : String → FetchOutcome)
    (changeEntries : List ChangeEntry) : List EnhancedChange :=
  changeEntries.map (enhanceChange fetch)

/-- Strict ordering of two segments: the second starts strictly after the
first starts and strictly after the first ends, in both the original and
the current line ranges (so ordered segments never overlap). -/
def segOrder (c1 c2 : Change) : Prop :=
  c1.originalStart < c2.originalStart ∧ c1.currentStart < c2.currentStart ∧
    c1.originalEnd < c2.originalStart ∧ c1.currentEnd < c2.currentStart

theorem linesMatch_true_iff (ol cl : List String) (oi ci : Nat) :
    linesMatch ol cl oi ci = true ↔
      oi < ol.length ∧ ci < cl.length ∧
        normalizeLineForComparison (ol.getD oi "") =
          normalizeLineForComparison (cl.getD ci "") := by
  simp [linesMatch]

theorem linesMatch_false_of_left_oob (ol cl : List String) (oi ci : Nat)
    (h : ol.length ≤ oi) : linesMatch ol cl oi ci = false := by
  simp only [linesMatch, decide_eq_false_iff_not]
  rintro ⟨h1, -⟩
  omega

theorem skipIdentical_stop (ol cl : List String) (oi ci : Nat)
    (h : linesMatch ol cl oi ci = false) :
    skipIdentical ol cl oi ci = (oi, ci) := by
  unfold skipIdentical
  cases hn : ol.length - oi with
  | zero => rfl
  | succ n => simp [skipIdenticalAux, h]

theorem skipIdentical_step (ol cl : List String) (oi ci : Nat)
    (h : linesMatch ol cl oi ci = true) :
    skipIdentical ol cl oi ci = skipIdentical ol cl (oi + 1) (ci + 1) := by
  have hb : oi < ol.length := ((linesMatch_true_iff ol cl oi ci).mp h).1
  unfold skipIdentical
  have hn : ol.length - oi = (ol.length - (oi + 1)) + 1 := by omega
  rw [hn]
  simp [skipIdenticalAux, h]

theorem skipIdenticalAux_shape (ol cl : List String) :
    ∀ fuel oi ci, ∃ k, skipIdenticalAux ol cl fuel oi ci = (oi + k, ci + k) := by
  intro fuel
  induction fuel with
  | zero => intro oi ci; exact ⟨0, rfl⟩
  | succ fuel IH =>
    intro oi ci
    by_cases h : linesMatch ol cl oi ci = true
    · obtain ⟨k, hk⟩ := IH (oi + 1) (ci + 1)
      refine ⟨k + 1, ?_⟩
      simp only [skipIdenticalAux, h, if_true, hk, Prod.mk.injEq]
      omega
    · refine ⟨0, ?_⟩
      simp only [skipIdenticalAux, eq_self_iff_true, Bool.not_eq_true] at h
      simp [skipIdenticalAux, h]

theorem skipIdentical_shape (ol cl : List String) (oi ci : Nat) :
    ∃ k, skipIdentical ol cl oi ci = (oi + k, ci + k) :=
  skipIdenticalAux_shape ol cl (ol.length - oi) oi ci

theorem skipIdenticalAux_le (ol cl : List String) :
    ∀ fuel oi ci, oi ≤ ol.length → ci ≤ cl.length →
      (skipIdenticalAux ol cl fuel oi ci).1 ≤ ol.length ∧
        (skipIdenticalAux ol cl fuel oi ci).2 ≤ cl.length := by
  intro fuel
  induction fuel with
  | zero => intro oi ci h1 h2; exact ⟨h1, h2⟩
  | succ fuel IH =>
    intro oi ci h1 h2
    by_cases h : linesMatch ol cl oi ci = true
    · have hb := (linesMatch_true_iff ol cl oi ci).mp h
      simp only [skipIdenticalAux, h, if_true]
      exact IH (oi + 1) (ci + 1) (by omega) (by omega)
    · simp only [Bool.not_eq_true] at h
      simp only [skipIdenticalAux, h, Bool.false_eq_true, if_false]
      exact ⟨h1, h2⟩

theorem skipIdentical_le (ol cl : List String) (oi ci : Nat)
    (h1 : oi ≤ ol.length) (h2 : ci ≤ cl.length) :
    (skipIdentical ol cl oi ci).1 ≤ ol.length ∧
      (skipIdentical ol cl oi ci).2 ≤ cl.length :=
  skipIdenticalAux_le ol cl (ol.length - oi) oi ci h1 h2

theorem skipIdentical_block (ol cl : List String) :
    ∀ j oi ci, (∀ t, t < j → linesMatch ol cl (oi + t) (ci + t) = true) →
      linesMatch ol cl (oi + j) (ci + j) = false →
      skipIdentical ol cl oi ci = (oi + j, ci + j) := by
  intro j
  induction j with
  | zero =>
    intro oi ci _ hstop
    simpa using skipIdentical_stop ol cl oi ci (by simpa using hstop)
  | succ j IH =>
    intro oi ci hall hstop
    have h0 : linesMatch ol cl oi ci = true := by simpa using hall 0 (by omega)
    rw [skipIdentical_step ol cl oi ci h0]
    have hall2 : ∀ t, t < j → linesMatch ol cl (oi + 1 + t) (ci + 1 + t) = true := by
      intro t ht
      have := hall (t + 1) (by omega)
      have e1 : oi + 1 + t = oi + (t + 1) := by omega
      have e2 : ci + 1 + t = ci + (t + 1) := by omega
      rw [e1, e2]
      exact this
    have hstop2 : linesMatch ol cl (oi + 1 + j) (ci + 1 + j) = false := by
      have e1 : oi + 1 + j = oi + (j + 1) := by omega
      have e2 : ci + 1 + j = ci + (j + 1) := by omega
      rw [e1, e2]
      exact hstop
    rw [IH (oi + 1) (ci + 1) hall2 hstop2]
    simp only [Prod.mk.injEq]
    omega

theorem findMatchAtLevel_none (ol cl : List String) (oi ci ahead : Nat) :
    ∀ remaining origOffset,
      (∀ t, origOffset ≤ t → t < origOffset + remaining →
        linesMatch ol cl (oi + t) (ci + (ahead - t)) = false) →
      findMatchAtLevel ol cl oi ci ahead remaining origOffset = none := by
  intro remaining
  induction remaining with
  | zero => intro origOffset _; rfl
  | succ r IH =>
    intro origOffset hall
    have h0 : linesMatch ol cl (oi + origOffset) (ci + (ahead - origOffset)) = false :=
      hall origOffset (by omega) (by omega)
    simp only [findMatchAtLevel, h0, Bool.false_eq_true, if_false]
    exact IH (origOffset + 1) (fun t h1 h2 => hall t (by omega) (by omega))

theorem findMatchAtLevel_found (ol cl : List String) (oi ci ahead : Nat)
    (origOffset : Nat) (r : Nat)
    (h : linesMatch ol cl (oi + origOffset) (ci + (ahead - origOffset)) = true) :
    findMatchAtLevel ol cl oi ci ahead (r + 1) origOffset =
      some (origOffset, ahead - origOffset) := by
  simp [findMatchAtLevel, h]

theorem findMatchAtLevel_some (ol cl : List String) (oi ci ahead : Nat) :
    ∀ r t o c, t + r = ahead + 1 →
      findMatchAtLevel ol cl oi ci ahead r t = some (o, c) →
      linesMatch ol cl (oi + o) (ci + c) = true ∧ o + c = ahead ∧ o ≤ ahead := by
  intro r
  induction r with
  | zero => intro t o c _ h; simp [findMatchAtLevel] at h
  | succ r IH =>
    intro t o c hsum h
    by_cases hm : linesMatch ol cl (oi + t) (ci + (ahead - t)) = true
    · simp only [findMatchAtLevel, hm, if_true, Option.some.injEq, Prod.mk.injEq] at h
      obtain ⟨rfl, rfl⟩ := h
      exact ⟨hm, by omega, by omega⟩
    · simp only [Bool.not_eq_true] at hm
      simp only [findMatchAtLevel, hm, Bool.false_eq_true, if_false] at h
      exact IH (t + 1) o c (by omega) h

theorem searchLevels_some (ol cl : List String) (oi ci : Nat) :
    ∀ r a o c, 1 ≤ a → searchLevels ol cl oi ci r a = some (o, c) →
      linesMatch ol cl (oi + o) (ci + c) = true ∧ 1 ≤ o + c := by
  intro r
  induction r with
  | zero => intro a o c _ h; simp [searchLevels] at h
  | succ r IH =>
    intro a o c ha h
    simp only [searchLevels] at h
    cases hl : findMatchAtLevel ol cl oi ci a (a + 1) 0 with
    | some v =>
      rw [hl] at h
      simp only [Option.some.injEq] at h
      subst h
      obtain ⟨hm, hsum, -⟩ :=
        findMatchAtLevel_some ol cl oi ci a (a + 1) 0 o c (by omega) hl
      exact ⟨hm, by omega⟩
    | none =>
      rw [hl] at h
      exact IH (a + 1) o c (by omega) h

theorem searchLevels_finds (ol cl : List String) (oi ci k : Nat)
    (v : Nat × Nat) (hv : findMatchAtLevel ol cl oi ci k (k + 1) 0 = some v) :
    ∀ r a, a ≤ k → k < a + r →
      (∀ b, a ≤ b → b < k → findMatchAtLevel ol cl oi ci b (b + 1) 0 = none) →
      searchLevels ol cl oi ci r a = some v := by
  intro r
  induction r with
  | zero => intro a h1 h2 _; omega
  | succ r IH =>
    intro a h1 h2 hnone
    by_cases hak : a = k
    · subst hak
      simp only [searchLevels, hv]
    · have hlt : a < k := by omega
      simp only [searchLevels, hnone a (by omega) hlt]
      exact IH (a + 1) (by omega) (by omega) (fun b hb1 hb2 => hnone b (by omega) hb2)

theorem searchLevels_none (ol cl : List String) (oi ci : Nat) :
    ∀ r a, (∀ b, a ≤ b → b < a + r →
        findMatchAtLevel ol cl oi ci b (b + 1) 0 = none) →
      searchLevels ol cl oi ci r a = none := by
  intro r
  induction r with
  | zero => intro a _; rfl
  | succ r IH =>
    intro a hnone
    simp only [searchLevels, hnone a (by omega) (by omega)]
    exact IH (a + 1) (fun b h1 h2 => hnone b (by omega) (by omega))

theorem lookAheadSearch_some (ol cl : List String) (oi ci o c : Nat)
    (h : lookAheadSearch ol cl oi ci = some (o, c)) :
    linesMatch ol cl (oi + o) (ci + c) = true ∧ 1 ≤ o + c :=
  searchLevels_some ol cl oi ci lookAheadLimit 1 o c (by omega) h

theorem fmcLoop_isSome (ol cl : List String) :
    ∀ fuel oi ci, oi ≤ ol.length → ci ≤ cl.length →
      ol.length + cl.length + 1 ≤ fuel + (oi + ci) →
      (fmcLoop ol cl fuel oi ci).isSome = true := by
  intro fuel
  induction fuel with
  | zero => intro oi ci h1 h2 h3; omega
  | succ fuel IH =>
    intro oi ci h1 h2 h3
    by_cases hcond : oi < ol.length ∨ ci < cl.length
    · obtain ⟨k, hskip⟩ := skipIdentical_shape ol cl oi ci
      have hle := skipIdentical_le ol cl oi ci h1 h2
      rw [hskip] at hle
      simp only [fmcLoop, hskip]
      rw [if_pos hcond]
      by_cases hdone : ol.length ≤ oi + k ∧ cl.length ≤ ci + k
      · rw [if_pos hdone]
        simp
      · rw [if_neg hdone]
        cases hs : lookAheadSearch ol cl (oi + k) (ci + k) with
        | none =>
          simp only []
          by_cases hf1 : oi + k < ol.length ∧ ci + k < cl.length
          · rw [if_pos hf1]; simp
          · rw [if_neg hf1]
            by_cases hf2 : oi + k < ol.length
            · rw [if_pos hf2]; simp
            · rw [if_neg hf2]
              by_cases hf3 : ci + k < cl.length
              · rw [if_pos hf3]; simp
              · exact absurd ⟨by omega, by omega⟩ hdone
        | some v =>
          obtain ⟨o, c⟩ := v
          simp only []
          obtain ⟨hm, hsum⟩ := lookAheadSearch_some ol cl (oi + k) (ci + k) o c hs
          obtain ⟨hmo, hmc, -⟩ := (linesMatch_true_iff ol cl _ _).mp hm
          by_cases hb1 : o = 0 ∧ 0 < c
          · rw [if_pos hb1, Option.isSome_map']
            exact IH (oi + k) (ci + k + c) (by omega) (by omega) (by omega)
          · rw [if_neg hb1]
            by_cases hb2 : 0 < o ∧ c = 0
            · rw [if_pos hb2, Option.isSome_map']
              exact IH (oi + k + o) (ci + k) (by omega) (by omega) (by omega)
            · rw [if_neg hb2]
              by_cases hb3 : 0 < o ∧ 0 < c
              · rw [if_pos hb3, Option.isSome_map']
                exact IH (oi + k + o) (ci + k + c) (by omega) (by omega) (by omega)
              · exfalso; omega
    · simp only [fmcLoop]
      rw [if_neg hcond]
      simp

theorem fmcLoop_inv (ol cl : List String) :
    ∀ fuel oi ci res a b, fmcLoop ol cl fuel oi ci = some res →
      skipIdentical ol cl oi ci = (a, b) →
      (∀ s ∈ res, a + 1 ≤ s.originalStart ∧ b + 1 ≤ s.currentStart ∧
        s.originalStart ≤ s.originalEnd ∧ s.currentStart ≤ s.currentEnd) ∧
      res.Pairwise segOrder := by
  intro fuel
  induction fuel with
  | zero => intro oi ci res a b h _; simp [fmcLoop] at h
  | succ fuel IH =>
    intro oi ci res a b h hskip
    by_cases hcond : oi < ol.length ∨ ci < cl.length
    · obtain ⟨k, hsk⟩ := skipIdentical_shape ol cl oi ci
      rw [hsk] at hskip
      obtain ⟨rfl, rfl⟩ : oi + k = a ∧ ci + k = b := by
        refine ⟨?_, ?_⟩ <;> injection hskip
      simp only [fmcLoop, hsk] at h
      rw [if_pos hcond] at h
      by_cases hdone : ol.length ≤ oi + k ∧ cl.length ≤ ci + k
      · rw [if_pos hdone] at h
        obtain rfl : ([] : List Change) = res := by injection h
        exact ⟨by simp, by simp⟩
      · rw [if_neg hdone] at h
        cases hs : lookAheadSearch ol cl (oi + k) (ci + k) with
        | none =>
          rw [hs] at h
          simp only [] at h
          by_cases hf1 : oi + k < ol.length ∧ ci + k < cl.length
          · rw [if_pos hf1] at h
            obtain rfl := (Option.some.injEq _ _).mp h
            refine ⟨?_, List.pairwise_singleton _ _⟩
            intro s hsmem
            obtain rfl := List.mem_singleton.mp hsmem
            refine ⟨?_, ?_, ?_, ?_⟩ <;> simp <;> omega
          · rw [if_neg hf1] at h
            by_cases hf2 : oi + k < ol.length
            · rw [if_pos hf2] at h
              obtain rfl := (Option.some.injEq _ _).mp h
              refine ⟨?_, List.pairwise_singleton _ _⟩
              intro s hsmem
              obtain rfl := List.mem_singleton.mp hsmem
              refine ⟨?_, ?_, ?_, ?_⟩ <;> simp <;> omega
            · rw [if_neg hf2] at h
              by_cases hf3 : ci + k < cl.length
              · rw [if_pos hf3] at h
                obtain rfl := (Option.some.injEq _ _).mp h
                refine ⟨?_, List.pairwise_singleton _ _⟩
                intro s hsmem
                obtain rfl := List.mem_singleton.mp hsmem
                refine ⟨?_, ?_, ?_, ?_⟩ <;> simp <;> omega
              · exact absurd ⟨by omega, by omega⟩ hdone
        | some v =>
          obtain ⟨o, c⟩ := v
          rw [hs] at h
          simp only [] at h
          obtain ⟨hm, hsum⟩ := lookAheadSearch_some ol cl (oi + k) (ci + k) o c hs
          by_cases hb1 : o = 0 ∧ 0 < c
          · rw [if_pos hb1] at h
            obtain ⟨rfl, hc⟩ := hb1
            have hm2 : linesMatch ol cl (oi + k) (ci + k + c) = true := by
              simpa using hm
            cases hrec : fmcLoop ol cl fuel (oi + k) (ci + k + c) with
            | none => rw [hrec] at h; simp at h
            | some tail =>
              rw [hrec] at h
              simp only [Option.map_some'] at h
              obtain rfl := (Option.some.injEq _ _).mp h
              obtain ⟨k2, hsk2⟩ := skipIdentical_shape ol cl (oi + k + 1) (ci + k + c + 1)
              have hskip2 : skipIdentical ol cl (oi + k) (ci + k + c) =
                  (oi + k + 1 + k2, ci + k + c + 1 + k2) :=
                (skipIdentical_step ol cl (oi + k) (ci + k + c) hm2).trans hsk2
              obtain ⟨htb, htp⟩ := IH (oi + k) (ci + k + c) tail _ _ hrec hskip2
              constructor
              · intro s hsmem
                rcases List.mem_cons.mp hsmem with rfl | hsmem2
                · refine ⟨?_, ?_, ?_, ?_⟩ <;> simp <;> omega
                · have := htb s hsmem2
                  exact ⟨by omega, by omega, this.2.2.1, this.2.2.2⟩
              · refine List.pairwise_cons.mpr ⟨?_, htp⟩
                intro s hsmem2
                have hb := htb s hsmem2
                refine ⟨?_, ?_, ?_, ?_⟩ <;> simp <;> omega
          · rw [if_neg hb1] at h
            by_cases hb2 : 0 < o ∧ c = 0
            · rw [if_pos hb2] at h
              obtain ⟨ho, rfl⟩ := hb2
              have hm2 : linesMatch ol cl (oi + k + o) (ci + k) = true := by
                simpa using hm
              cases hrec : fmcLoop ol cl fuel (oi + k + o) (ci + k) with
              | none => rw [hrec] at h; simp at h
              | some tail =>
                rw [hrec] at h
                simp only [Option.map_some'] at h
                obtain rfl := (Option.some.injEq _ _).mp h
                obtain ⟨k2, hsk2⟩ := skipIdentical_shape ol cl (oi + k + o + 1) (ci + k + 1)
                have hskip2 : skipIdentical ol cl (oi + k + o) (ci + k) =
                    (oi + k + o + 1 + k2, ci + k + 1 + k2) :=
                  (skipIdentical_step ol cl (oi + k + o) (ci + k) hm2).trans hsk2
                obtain ⟨htb, htp⟩ := IH (oi + k + o) (ci + k) tail _ _ hrec hskip2
                constructor
                · intro s hsmem
                  rcases List.mem_cons.mp hsmem with rfl | hsmem2
                  · refine ⟨?_, ?_, ?_, ?_⟩ <;> simp <;> omega
                  · have := htb s hsmem2
                    exact ⟨by omega, by omega, this.2.2.1, this.2.2.2⟩
                · refine List.pairwise_cons.mpr ⟨?_, htp⟩
                  intro s hsmem2
                  have hb := htb s hsmem2
                  refine ⟨?_, ?_, ?_, ?_⟩ <;> simp <;> omega
            · rw [if_neg hb2] at h
              by_cases hb3 : 0 < o ∧ 0 < c
              · rw [if_pos hb3] at h
                obtain ⟨ho, hc⟩ := hb3
                cases hrec : fmcLoop ol cl fuel (oi + k + o) (ci + k + c) with
                | none => rw [hrec] at h; simp at h
                | some tail =>
                  rw [hrec] at h
                  simp only [Option.map_some'] at h
                  obtain rfl := (Option.some.injEq _ _).mp h
                  obtain ⟨k2, hsk2⟩ :=
                    skipIdentical_shape ol cl (oi + k + o + 1) (ci + k + c + 1)
                  have hskip2 : skipIdentical ol cl (oi + k + o) (ci + k + c) =
                      (oi + k + o + 1 + k2, ci + k + c + 1 + k2) :=
                    (skipIdentical_step ol cl (oi + k + o) (ci + k + c) hm).trans hsk2
                  obtain ⟨htb, htp⟩ := IH (oi + k + o) (ci + k + c) tail _ _ hrec hskip2
                  constructor
                  · intro s hsmem
                    rcases List.mem_cons.mp hsmem with rfl | hsmem2
                    · refine ⟨?_, ?_, ?_, ?_⟩ <;> simp <;> omega
                    · have := htb s hsmem2
                      exact ⟨by omega, by omega, this.2.2.1, this.2.2.2⟩
                  · refine List.pairwise_cons.mpr ⟨?_, htp⟩
                    intro s hsmem2
                    have hb := htb s hsmem2
                    refine ⟨?_, ?_, ?_, ?_⟩ <;> simp <;> omega
              · exfalso; omega
    · simp only [fmcLoop] at h
      rw [if_neg hcond] at h
      obtain rfl : ([] : List Change) = res := by injection h
      exact ⟨by simp, by simp⟩

theorem getD_as_getElem? (l : List String) (n : Nat) :
    l.getD n "" = (l[n]?).getD "" := by
  rw [List.getD_eq_getD_get?, List.get?_eq_getElem?]

theorem getD_mem_of_lt (l : List String) (n : Nat) (h : n < l.length) :
    l.getD n "" ∈ l := by
  rw [List.getD_eq_getElem _ _ h]
  exact List.getElem_mem h

theorem insertList_length (A ins : List String) (p : Nat) (hp : p ≤ A.length) :
    (A.take p ++ ins ++ A.drop p).length = A.length + ins.length := by
  simp [List.length_append, List.length_take, List.length_drop]
  omega

theorem insert_getD_left (A ins : List String) (p t : Nat) (ht : t < p)
    (hp : p ≤ A.length) :
    (A.take p ++ ins ++ A.drop p).getD t "" = A.getD t "" := by
  have h1 : t < (A.take p).length := by simp; omega
  have h2 : t < (A.take p ++ ins).length := by simp; omega
  rw [getD_as_getElem?, getD_as_getElem?, List.getElem?_append_left h2,
    List.getElem?_append_left h1, List.getElem?_take_of_lt ht]

theorem insert_getD_mid (A ins : List String) (p t : Nat) (ht : t < ins.length)
    (hp : p ≤ A.length) :
    (A.take p ++ ins ++ A.drop p).getD (p + t) "" = ins.getD t "" := by
  have hlen : (A.take p).length = p := by simp; omega
  have h2 : p + t < (A.take p ++ ins).length := by simp; omega
  have h3 : (A.take p).length ≤ p + t := by omega
  rw [getD_as_getElem?, getD_as_getElem?, List.getElem?_append_left h2,
    List.getElem?_append_right h3, hlen]
  have h4 : p + t - p = t := by omega
  rw [h4]

theorem insert_getD_right (A ins : List String) (p t : Nat) (hp : p ≤ A.length) :
    (A.take p ++ ins ++ A.drop p).getD (p + ins.length + t) "" =
      A.getD (p + t) "" := by
  have hlen2 : (A.take p ++ ins).length = p + ins.length := by simp; omega
  have h3 : (A.take p ++ ins).length ≤ p + ins.length + t := by omega
  rw [getD_as_getElem?, getD_as_getElem?, List.getElem?_append_right h3, hlen2]
  have h4 : p + ins.length + t - (p + ins.length) = t := by omega
  rw [h4, List.getElem?_drop]

theorem insert_skip_front (A ins : List String) (p : Nat) (hp : p ≤ A.length)
    (hk1 : 1 ≤ ins.length)
    (hdist : ∀ x ∈ ins, ∀ y ∈ A,
      normalizeLineForComparison x ≠ normalizeLineForComparison y) :
    skipIdentical A (A.take p ++ ins ++ A.drop p) 0 0 = (p, p) := by
  have hBlen := insertList_length A ins p hp
  have hall : ∀ t, t < p →
      linesMatch A (A.take p ++ ins ++ A.drop p) (0 + t) (0 + t) = true := by
    intro t ht
    simp only [Nat.zero_add]
    rw [linesMatch_true_iff]
    refine ⟨by omega, by omega, ?_⟩
    rw [insert_getD_left A ins p t ht hp]
  have hstop : linesMatch A (A.take p ++ ins ++ A.drop p) (0 + p) (0 + p) = false := by
    simp only [Nat.zero_add]
    by_cases hplen : p < A.length
    · simp only [linesMatch, decide_eq_false_iff_not]
      rintro ⟨-, -, heq⟩
      have hmid : (A.take p ++ ins ++ A.drop p).getD p "" = ins.getD 0 "" := by
        have h := insert_getD_mid A ins p 0 (by omega) hp
        simpa using h
      rw [hmid] at heq
      exact hdist (ins.getD 0 "") (getD_mem_of_lt ins 0 (by omega))
        (A.getD p "") (getD_mem_of_lt A p hplen) heq.symm
    · exact linesMatch_false_of_left_oob A _ p p (by omega)
  have hb := skipIdentical_block A (A.take p ++ ins ++ A.drop p) p 0 0 hall hstop
  simpa using hb

theorem insert_search_finds (A ins : List String) (p : Nat)
    (hplen : p < A.length) (hp : p ≤ A.length) (hk1 : 1 ≤ ins.length)
    (hk5 : ins.length ≤ 5)
    (hdist : ∀ x ∈ ins, ∀ y ∈ A,
      normalizeLineForComparison x ≠ normalizeLineForComparison y) :
    lookAheadSearch A (A.take p ++ ins ++ A.drop p) p p =
      some (0, ins.length) := by
  have hBlen := insertList_length A ins p hp
  have hfound : findMatchAtLevel A (A.take p ++ ins ++ A.drop p) p p ins.length
      (ins.length + 1) 0 = some (0, ins.length) := by
    have hm : linesMatch A (A.take p ++ ins ++ A.drop p) (p + 0)
        (p + (ins.length - 0)) = true := by
      simp only [Nat.add_zero, Nat.sub_zero]
      rw [linesMatch_true_iff]
      refine ⟨by omega, by omega, ?_⟩
      have h := insert_getD_right A ins p 0 hp
      simp only [Nat.add_zero] at h
      rw [h]
    have h := findMatchAtLevel_found A (A.take p ++ ins ++ A.drop p) p p
      ins.length 0 ins.length hm
    simpa using h
  have hnone : ∀ b, 1 ≤ b → b < ins.length →
      findMatchAtLevel A (A.take p ++ ins ++ A.drop p) p p b (b + 1) 0 = none := by
    intro b hb1 hbk
    apply findMatchAtLevel_none
    intro t ht0 htb
    by_cases hob : p + t < A.length
    · simp only [linesMatch, decide_eq_false_iff_not]
      rintro ⟨-, -, heq⟩
      have hmid : (A.take p ++ ins ++ A.drop p).getD (p + (b - t)) "" =
          ins.getD (b - t) "" :=
        insert_getD_mid A ins p (b - t) (by omega) hp
      rw [hmid] at heq
      exact hdist (ins.getD (b - t) "") (getD_mem_of_lt ins (b - t) (by omega))
        (A.getD (p + t) "") (getD_mem_of_lt A (p + t) hob) heq.symm
    · exact linesMatch_false_of_left_oob A _ (p + t) _ (by omega)
  show searchLevels A (A.take p ++ ins ++ A.drop p) p p lookAheadLimit 1 =
    some (0, ins.length)
  exact searchLevels_finds A (A.take p ++ ins ++ A.drop p) p p ins.length
    (0, ins.length) hfound lookAheadLimit 1 hk1 (by unfold lookAheadLimit; omega)
    hnone

theorem insert_skip_tail (A ins : List String) (p : Nat)
    (hplen : p < A.length) (hp : p ≤ A.length) :
    skipIdentical A (A.take p ++ ins ++ A.drop p) p (p + ins.length) =
      (A.length, A.length + ins.length) := by
  have hBlen := insertList_length A ins p hp
  have hall : ∀ t, t < A.length - p →
      linesMatch A (A.take p ++ ins ++ A.drop p) (p + t)
        (p + ins.length + t) = true := by
    intro t ht
    rw [linesMatch_true_iff]
    refine ⟨by omega, by omega, ?_⟩
    rw [insert_getD_right A ins p t hp]
  have hstop : linesMatch A (A.take p ++ ins ++ A.drop p) (p + (A.length - p))
      (p + ins.length + (A.length - p)) = false :=
    linesMatch_false_of_left_oob A _ _ _ (by omega)
  have hb := skipIdentical_block A (A.take p ++ ins ++ A.drop p) (A.length - p)
    p (p + ins.length) hall hstop
  exact hb.trans (by simp only [Prod.mk.injEq]; exact ⟨by omega, by omega⟩)

/-- C3 amended: inserting k = ins.length lines (1 ≤ k ≤ 5, the look-ahead
window) into A at position p produces exactly one Added segment of size k
anchored at position p (current lines p+1 .. p+k), provided every inserted
line differs after whitespace normalization from every line of A; without
that proviso the heuristic can resynchronize on a duplicated line and emit
different segments (see the counterexample). -/
theorem C3_insertion_amended (A ins : List String) (p : Nat)
    (hp : p ≤ A.length) (hk1 : 1 ≤ ins.length) (hk5 : ins.length ≤ 5)
    (hdist : ∀ x ∈ ins, ∀ y ∈ A,
      normalizeLineForComparison x ≠ normalizeLineForComparison y) :
    findMeaningfulChanges A (A.take p ++ ins ++ A.drop p) =
      [⟨ChangeKind.added, p + 1, p + 1, p + 1, p + ins.length,
        "Added " ++ toString ins.length ++ " lines"⟩] := by
  have hBlen := insertList_length A ins p hp
  have hskip0 := insert_skip_front A ins p hp hk1 hdist
  unfold findMeaningfulChanges findMeaningfulChangesOpt
  by_cases hplen : p < A.length
  · have hsearch := insert_search_finds A ins p hplen hp hk1 hk5 hdist
    have hskip2 := insert_skip_tail A ins p hplen hp
    have htail : ∀ fuel, 1 ≤ fuel →
        fmcLoop A (A.take p ++ ins ++ A.drop p) fuel p (p + ins.length) =
          some [] := by
      intro fuel hf
      obtain ⟨f2, rfl⟩ : ∃ f2, fuel = f2 + 1 := ⟨fuel - 1, by omega⟩
      simp only [fmcLoop, hskip2]
      rw [if_pos (Or.inl hplen), if_pos ⟨le_refl A.length, by omega⟩]
    simp only [fmcLoop, hskip0]
    rw [if_pos (show 0 < A.length ∨ 0 < (A.take p ++ ins ++ A.drop p).length from
      Or.inl (by omega))]
    rw [if_neg (show ¬ (A.length ≤ p ∧ (A.take p ++ ins ++ A.drop p).length ≤ p)
      from by rintro ⟨hc, -⟩; omega)]
    rw [hsearch]
    simp only []
    rw [if_pos (show True ∧ 0 < ins.length from ⟨trivial, by omega⟩)]
    rw [htail (A.length + (A.take p ++ ins ++ A.drop p).length) (by omega)]
    rfl
  · have hsearchnone : lookAheadSearch A (A.take p ++ ins ++ A.drop p) p p =
        none := by
      show searchLevels A (A.take p ++ ins ++ A.drop p) p p lookAheadLimit 1 =
        none
      apply searchLevels_none
      intro b hb1 hb2
      apply findMatchAtLevel_none
      intro t ht1 ht2
      exact linesMatch_false_of_left_oob A _ (p + t) _ (by omega)
    simp only [fmcLoop, hskip0]
    rw [if_pos (show 0 < A.length ∨ 0 < (A.take p ++ ins ++ A.drop p).length from
      Or.inr (by omega))]
    rw [if_neg (show ¬ (A.length ≤ p ∧ (A.take p ++ ins ++ A.drop p).length ≤ p)
      from by rintro ⟨-, hc⟩; omega)]
    rw [hsearchnone]
    simp only []
    rw [if_neg (show ¬ (p < A.length ∧ p < (A.take p ++ ins ++ A.drop p).length)
      from by rintro ⟨hc, -⟩; omega)]
    rw [if_neg (show ¬ p < A.length from hplen)]
    rw [if_pos (show p < (A.take p ++ ins ++ A.drop p).length from by omega)]
    have h1 : (A.take p ++ ins ++ A.drop p).length = p + ins.length := by omega
    rw [h1]
    have h2 : p + ins.length - p = ins.length := by omega
    rw [h2]
    rfl

/-- Closed instance of C3 amended: inserting ["x"] into ["a","b"] at
position 1 yields exactly one Added segment of size 1 at current line 2,
by the amended theorem with its hypotheses discharged. -/
theorem C3_insertion_amended_witness :
    findMeaningfulChanges ["a", "b"]
        (List.take 1 ["a", "b"] ++ ["x"] ++ List.drop 1 ["a", "b"]) =
      [⟨ChangeKind.added, 2, 2, 2, 2, "Added " ++ toString 1 ++ " lines"⟩] :=
  C3_insertion_amended ["a", "b"] ["x"] 1 (by decide) (by decide) (by decide)
    (by decide)

theorem getD_take (l : List String) (n m : Nat) (h : m < n) :
    (l.take n).getD m "" = l.getD m "" := by
  rw [getD_as_getElem?, getD_as_getElem?, List.getElem?_take_of_lt h]

theorem getD_drop (l : List String) (n m : Nat) :
    (l.drop n).getD m "" = l.getD (n + m) "" := by
  rw [getD_as_getElem?, getD_as_getElem?, List.getElem?_drop]

theorem numberLines_eq_range (mk : Nat → String → String) :
    ∀ (l : List String) (start : Nat),
      numberLines mk start l =
        (List.range l.length).map (fun j => mk (start + j) (l.getD j "")) := by
  intro l
  induction l with
  | nil => intro start; rfl
  | cons a rest IH =>
    intro start
    simp only [numberLines, List.length_cons, List.range_succ_eq_map,
      List.map_cons, List.map_map]
    congr 1
    rw [IH (start + 1)]
    apply List.map_congr_left
    intro j hj
    simp only [Function.comp_apply, getD_as_getElem?, List.getElem?_cons_succ]
    congr 1
    omega

theorem range_map_one_add (mk : Nat → String → String) (l : List String) :
    (List.range l.length).map (fun j => mk (1 + j) (l.getD j "")) =
      (List.range l.length).map (fun i => mk (i + 1) (l.getD i "")) := by
  apply List.map_congr_left
  intro j hj
  rw [Nat.add_comm 1 j]

theorem range_map_getD_take (mk : Nat → String → String) (l : List String)
    (n : Nat) :
    (List.range n).map (fun j => mk (1 + j) ((l.take n).getD j "")) =
      (List.range n).map (fun i => mk (i + 1) (l.getD i "")) := by
  apply List.map_congr_left
  intro j hj
  rw [List.mem_range] at hj
  rw [Nat.add_comm 1 j, getD_take l n j hj]

theorem range_map_getD_drop (mk : Nat → String → String) (l : List String)
    (s n : Nat) :
    (List.range n).map (fun j => mk (s + 1 + j) ((l.drop s).getD j "")) =
      (List.range n).map (fun i => mk (s + i + 1) (l.getD (s + i) "")) := by
  apply List.map_congr_left
  intro j hj
  rw [getD_drop]
  rw [show s + 1 + j = s + j + 1 from by omega]

/-- C6: for input of L lines at or below the renderer's size threshold
(250 for the added-file renderer, 100 for the deleted-file renderer), the
rendered body contains exactly L line-number entries numbered 1 through L;
above the threshold, the body is the first 50 entries numbered 1..50, a
summary line stating the hidden-line count L - 60 and the true hidden
range 51 to L - 10, then the last 10 entries numbered L-9..L; and the
reported hidden count plus the 50 + 10 shown lines equals L. -/
theorem C6_renderer_line_numbering (lines : List String) (path : String) :
    (calculateAddedFileDiffLines lines path =
      addedDiffHeader lines.length path ++
      (if lines.length ≤ 250 then
        (List.range lines.length).map
          (fun i => addedLineEntry (i + 1) (lines.getD i ""))
      else
        (List.range 50).map (fun i => addedLineEntry (i + 1) (lines.getD i "")) ++
        ["+... (" ++ toString (lines.length - 60) ++ " more lines: " ++
          toString 51 ++ "-" ++ toString (lines.length - 10) ++
          ", all commentable) ..."] ++
        (List.range 10).map (fun i =>
          addedLineEntry (lines.length - 10 + i + 1)
            (lines.getD (lines.length - 10 + i) ""))) ++
      addedDiffFooter lines.length) ∧
    (250 < lines.length → lines.length - 60 + (50 + 10) = lines.length) ∧
    (calculateDeletedFileDiffLines lines path =
      deletedDiffHeader lines.length path ++
      (if lines.length ≤ 100 then
        (List.range lines.length).map
          (fun i => deletedLineEntry (i + 1) (lines.getD i ""))
      else
        (List.range 50).map (fun i => deletedLineEntry (i + 1) (lines.getD i "")) ++
        ["-... (" ++ toString (lines.length - 60) ++ " more deleted lines: " ++
          toString 51 ++ "-" ++ toString (lines.length - 10) ++
          ", all commentable) ..."] ++
        (List.range 10).map (fun i =>
          deletedLineEntry (lines.length - 10 + i + 1)
            (lines.getD (lines.length - 10 + i) ""))) ++
      deletedDiffFooter lines.length) ∧
    (100 < lines.length → lines.length - 60 + (50 + 10) = lines.length) := by
  refine ⟨?_, fun h => by omega, ?_, fun h => by omega⟩
  · by_cases hsize : lines.length ≤ 250
    · simp only [calculateAddedFileDiffLines]
      rw [if_neg (show ¬ 250 < lines.length from by omega), if_pos hsize,
        numberLines_eq_range, range_map_one_add addedLineEntry lines]
    · simp only [calculateAddedFileDiffLines]
      rw [if_pos (show 250 < lines.length from by omega), if_neg hsize]
      have hf : (lines.take 50).length = 50 := by simp; omega
      have hl : (lines.drop (lines.length - 10)).length = 10 := by simp; omega
      rw [hf, hl,
        if_pos (show 0 < lines.length - 50 - 10 from by omega),
        show lines.length - 50 - 10 = lines.length - 60 from by omega,
        show (50 : Nat) + 1 = 51 from rfl]
      simp only [numberLines_eq_range]
      rw [hf, hl, range_map_getD_take addedLineEntry lines 50,
        range_map_getD_drop addedLineEntry lines (lines.length - 10) 10]
  · by_cases hsize : lines.length ≤ 100
    · simp only [calculateDeletedFileDiffLines]
      rw [if_neg (show ¬ 100 < lines.length from by omega), if_pos hsize,
        numberLines_eq_range, range_map_one_add deletedLineEntry lines]
    · simp only [calculateDeletedFileDiffLines]
      rw [if_pos (show 100 < lines.length from by omega), if_neg hsize]
      have hf : (lines.take 50).length = 50 := by simp; omega
      have hl : (lines.drop (lines.length - 10)).length = 10 := by simp; omega
      rw [hf, hl,
        if_pos (show 0 < lines.length - 50 - 10 from by omega),
        show lines.length - 50 - 10 = lines.length - 60 from by omega,
        show (50 : Nat) + 1 = 51 from rfl]
      simp only [numberLines_eq_range]
      rw [hf, hl, range_map_getD_take deletedLineEntry lines 50,
        range_map_getD_drop deletedLineEntry lines (lines.length - 10) 10]

/-- Closed instance of C6 at 251 lines (above both thresholds), applying
the theorem and discharging both threshold hypotheses. -/
theorem C6_renderer_line_numbering_witness :
    ((List.replicate 251 "x").length - 60 + (50 + 10) =
      (List.replicate 251 "x").length) ∧
    ((List.replicate 251 "x").length - 60 + (50 + 10) =
      (List.replicate 251 "x").length) :=
  ⟨(C6_renderer_line_numbering (List.replicate 251 "x") "/w2.txt").2.1
      (by rw [List.length_replicate]; omega),
   (C6_renderer_line_numbering (List.replicate 251 "x") "/w2.txt").2.2.2
      (by rw [List.length_replicate]; omega)⟩

/-- C10: findMeaningfulChanges is total: for every pair of finite input
line sequences the loop terminates within fuel
`ol.length + cl.length + 1`, because every iteration either advances a
cursor by at least one line or emits a final segment and stops. -/
theorem C10_findMeaningfulChanges_terminates (ol cl : List String) :
    (findMeaningfulChangesOpt ol cl).isSome = true :=
  fmcLoop_isSome ol cl (ol.length + cl.length + 1) 0 0 (by omega) (by omega)
    (by omega)

/-- C5: for every pair of input line sequences, the segments returned by
findMeaningfulChanges are in strictly increasing original-sequence order
and no two segments overlap, neither in their original-sequence ranges nor
in their current-sequence ranges. -/
theorem C5_segments_ordered_disjoint (ol cl : List String) :
    (findMeaningfulChanges ol cl).Pairwise segOrder := by
  unfold findMeaningfulChanges
  cases hopt : findMeaningfulChangesOpt ol cl with
  | none => simp
  | some res =>
    obtain ⟨k, hsk⟩ := skipIdentical_shape ol cl 0 0
    have hinv := fmcLoop_inv ol cl (ol.length + cl.length + 1) 0 0 res _ _ hopt hsk
    simpa using hinv.2

/-- C2: whenever the two line sequences have equal length and are pairwise
equal after whitespace normalization, findMeaningfulChanges returns zero
segments and calculateUnifiedDiff emits exactly one whole-file hunk
annotated as having no meaningful differences. -/
theorem C2_no_meaningful_differences (ol cl : List String)
    (hlen : ol.length = cl.length)
    (hnorm : ∀ i, i < ol.length →
      normalizeLineForComparison (ol.getD i "") =
        normalizeLineForComparison (cl.getD i "")) :
    findMeaningfulChanges ol cl = [] ∧
    ∀ o c path, splitLines o = ol → splitLines c = cl →
      calculateUnifiedDiff o c path =
        "\n".intercalate ["--- a" ++ path, "+++ b" ++ path,
          "@@ -1," ++ toString ol.length ++ " +1," ++ toString cl.length ++ " @@",
          " (No meaningful differences found - likely formatting changes)"] := by
  have hskip : skipIdentical ol cl 0 0 = (ol.length, ol.length) := by
    have hblock := skipIdentical_block ol cl ol.length 0 0 ?_ ?_
    · simpa using hblock
    · intro t ht
      simp only [Nat.zero_add]
      rw [linesMatch_true_iff]
      exact ⟨by omega, by omega, hnorm t ht⟩
    · exact linesMatch_false_of_left_oob ol cl _ _ (by omega)
  have hfmc : findMeaningfulChanges ol cl = [] := by
    unfold findMeaningfulChanges findMeaningfulChangesOpt
    by_cases hcond : 0 < ol.length ∨ 0 < cl.length
    · simp only [fmcLoop, hskip]
      rw [if_pos hcond,
        if_pos (show ol.length ≤ ol.length ∧ cl.length ≤ ol.length from
          ⟨le_refl _, by omega⟩)]
      rfl
    · simp only [fmcLoop]
      rw [if_neg hcond]
      rfl
  refine ⟨hfmc, ?_⟩
  intro o c path ho hc
  simp only [calculateUnifiedDiff, ho, hc, hfmc, List.length_nil]
  rfl

/-- Closed instance of C2 at a pair of sequences that differ only in
whitespace, applying the theorem and discharging its hypotheses. -/
theorem C2_no_meaningful_differences_witness :
    findMeaningfulChanges ["x", " x"] ["x ", "x"] = [] ∧
    calculateUnifiedDiff "x\n x" "x \nx" "/w.txt" =
      "--- a/w.txt\n+++ b/w.txt\n@@ -1,2 +1,2 @@\n (No meaningful differences found - likely formatting changes)" := by
  have h := C2_no_meaningful_differences ["x", " x"] ["x ", "x"] (by decide)
    (by decide)
  exact ⟨h.1, (h.2 "x\n x" "x \nx" "/w.txt" (by decide) (by decide)).trans (by decide)⟩

/-- C1 counterexample: for original ["a","b","c"] and current
["a","x","c"] the rendered diff contains no hunk whose header is
`@@ -1,3 +1,3 @@` — the claimed header does not appear in the output at
all, refuting the rendering part of the claim. -/
theorem C1_header_counterexample :
    ¬ ("@@ -1,3 +1,3 @@" ∈
      splitLines (calculateUnifiedDiff "a\nb\nc" "a\nx\nc" "/file.txt")) := by
  decide

/-- C1 amended: for a Modified file with original lines ["a","b","c"] and
current lines ["a","x","c"], the diff engine produces exactly one Modified
segment spanning original line 2 to 2 and current line 2 to 2, rendered as
a single hunk whose header is `@@ -2,1 +2,1 @@` (the segment's own start
and size, not the whole file) followed by context "a", removed "b", added
"x", context "c". -/
theorem C1_modified_abc_amended :
    findMeaningfulChanges ["a", "b", "c"] ["a", "x", "c"] =
      [⟨ChangeKind.modified, 2, 2, 2, 2, "Modified 1 lines"⟩] ∧
    calculateUnifiedDiff "a\nb\nc" "a\nx\nc" "/file.txt" =
      "--- a/file.txt\n+++ b/file.txt\n@@ -2,1 +2,1 @@\n a\n-b\n+x\n c" := by
  decide

/-- C3 counterexample: ["b","z","a","b"] is ["a","b"] with the k = 2 lines
["b","z"] inserted at position p = 0 (both within the look-ahead window of
5), yet findMeaningfulChanges returns two segments — a Removed segment and
an Added one — not exactly one Added segment of size 2 anchored at p. -/
theorem C3_insertion_counterexample :
    (List.take 0 ["a", "b"] ++ ["b", "z"] ++ List.drop 0 ["a", "b"] =
      ["b", "z", "a", "b"]) ∧
    findMeaningfulChanges ["a", "b"] ["b", "z", "a", "b"] =
      [⟨ChangeKind.removed, 1, 1, 1, 1, "Removed 1 lines"⟩,
       ⟨ChangeKind.added, 3, 3, 2, 4, "Added 3 lines"⟩] ∧
    (findMeaningfulChanges ["a", "b"] ["b", "z", "a", "b"]).length ≠ 1 := by
  decide

/-- C4: for every requested (line, offset), the thread anchor built by
addPullRequestInlineComment has, for an Added file, both left positions
absent and right positions {line, offset} / {line, offset + 1}; for a
Deleted file, both right positions absent and left positions
{line, offset} / {line, offset + 1}; for a Modified (Edit) file, both left
positions absent and right positions {line, offset} / {line, offset + 1}. -/
theorem C4_inline_comment_anchor (path : String) (line offset : Int) :
    buildInlineCommentThreadContext VersionControlChangeType.Add path line offset =
      ⟨path, none, none, some ⟨line, offset⟩, some ⟨line, offset + 1⟩⟩ ∧
    buildInlineCommentThreadContext VersionControlChangeType.Delete path line offset =
      ⟨path, some ⟨line, offset⟩, some ⟨line, offset + 1⟩, none, none⟩ ∧
    buildInlineCommentThreadContext VersionControlChangeType.Edit path line offset =
      ⟨path, none, none, some ⟨line, offset⟩, some ⟨line, offset + 1⟩⟩ :=
  ⟨rfl, rfl, rfl⟩

/-- C7: evaluation of both renderers at the failing input "" (empty
content). JavaScript `''.split('\n')` is `['']`, so the `lines.length === 0`
guard of the dedicated empty-file branch never fires: the renderers emit
the ordinary one-line-file form — a `(1 lines)` header plus a numbered
entry for the single empty line — instead of the fixed "(empty file)"
marker with no per-line entries that the claim (and the code's own dead
branch) describes. -/
theorem C7_empty_input_renders_one_line :
    splitLines "" = [""] ∧
    calculateAddedFileDiff "" "/f.txt" ≠
      "--- /dev/null\n+++ b/f.txt\n@@ -0,0 +1,0 @@\n📄 NEW FILE (Empty)\n\n💬 INLINE COMMENT LINES: None (empty file)" ∧
    ("📄 NEW FILE (1 lines)" ∈ splitLines (calculateAddedFileDiff "" "/f.txt")) ∧
    (addedLineEntry 1 "" ∈ splitLines (calculateAddedFileDiff "" "/f.txt")) ∧
    calculateDeletedFileDiff "" "/f.txt" ≠
      "--- a/f.txt\n+++ /dev/null\n@@ -1,0 +0,0 @@\n🗑️ DELETED FILE (Empty)\n\n💬 INLINE COMMENT LINES: None (empty file was deleted)" ∧
    ("🗑️ DELETED FILE (1 lines removed)" ∈
      splitLines (calculateDeletedFileDiff "" "/f.txt")) ∧
    (deletedLineEntry 1 "" ∈ splitLines (calculateDeletedFileDiff "" "/f.txt")) := by
  decide

/-- C9 counterexample: an Added change entry whose blob fetch fails with an
API error gets a diffContent that is a full rendered new-file diff of the
placeholder text `[Content not available]` (the error is swallowed inside
getFileContentByObjectId and its placeholder is treated as the file's
content) — not a placeholder diffContent string as the claim states. -/
theorem C9_api_error_counterexample :
    (enhanceChange (fun _ => FetchOutcome.apiError "boom")
        ⟨"/f.txt", 1, none, some "obj1"⟩).diffContent ≠
      "[Content not available]" ∧
    (enhanceChange (fun _ => FetchOutcome.apiError "boom")
        ⟨"/f.txt", 1, none, some "obj1"⟩).diffContent ≠
      "[Diff not available]" ∧
    ("📄 NEW FILE (1 lines)" ∈
      splitLines (enhanceChange (fun _ => FetchOutcome.apiError "boom")
        ⟨"/f.txt", 1, none, some "obj1"⟩).diffContent) := by
  decide

/-- C8: for every repository identifier that is not GUID-shaped, not
cached, and without a case-insensitive exact name match among the
repositories listed in the project scope, resolveRepositoryId fails with
the not-found error whose message enumerates the names of the actually
available repositories. -/
theorem C8_unresolvable_name_notfound (cache : List (String × String))
    (repos : List RepoInfo) (project repository : String)
    (hguid : isRepositoryId repository = false)
    (hcache : cache.find? (fun p => p.1 == project ++ ":" ++ repository) = none)
    (hnomatch : ∀ r ∈ repos, repoNameMatches repository r = false) :
    resolveRepositoryId cache repos project repository =
      Except.error ("Repository '" ++ repository ++ "' not found in project '" ++
        project ++ "'. Available repositories: " ++
        ", ".intercalate (repos.map (fun r => r.name.getD ""))) := by
  have hfind : repos.find? (repoNameMatches repository) = none :=
    List.find?_eq_none.mpr (fun r hr => by simp [hnomatch r hr])
  simp only [resolveRepositoryId, hguid, Bool.false_eq_true, if_false, hcache,
    hfind]

/-- Closed instance of C8: resolving "Contoso.Api" against repositories
named RepoA and RepoB fails with the not-found error listing RepoA and
RepoB, by the theorem with its hypotheses discharged. -/
theorem C8_unresolvable_name_notfound_witness :
    resolveRepositoryId [] [⟨some "RepoA", "id-a"⟩, ⟨some "RepoB", "id-b"⟩]
      "Proj" "Contoso.Api" =
      Except.error "Repository 'Contoso.Api' not found in project 'Proj'. Available repositories: RepoA, RepoB" := by
  have h := C8_unresolvable_name_notfound []
    [⟨some "RepoA", "id-a"⟩, ⟨some "RepoB", "id-b"⟩] "Proj" "Contoso.Api"
    (by decide) rfl (by decide)
  exact h.trans (congrArg Except.error (by decide))

/-- C9 amended: during batch diff rendering, a stream-read failure while
fetching a file's blob content degrades that file's diffContent to the
placeholder string (`[Diff not available]` for Modified entries,
`[Content not available]` for Added and Deleted entries); a change entry's
rendered diff depends only on the fetch outcomes of its own object ids, so
one file's fetch failure never alters the diffs of other files; and the
batch result always contains exactly one diff entry per processed change
entry, in order (a blob-API failure, by contrast, is swallowed into
placeholder content and rendered as an ordinary diff — see the
counterexample). -/
theorem C9_batch_degradation_amended :
    (∀ (fetch : String → FetchOutcome) (chg : ChangeEntry) (e : String),
      chg.changeType = 2 → chg.originalObjectId.isSome = true →
      chg.objectId.isSome = true →
      (fetch (chg.originalObjectId.getD "") = FetchOutcome.streamError e ∨
        fetch (chg.objectId.getD "") = FetchOutcome.streamError e) →
      (enhanceChange fetch chg).diffContent = "[Diff not available]") ∧
    (∀ (fetch : String → FetchOutcome) (chg : ChangeEntry) (e : String),
      chg.changeType = 1 → chg.objectId.isSome = true →
      fetch (chg.objectId.getD "") = FetchOutcome.streamError e →
      (enhanceChange fetch chg).diffContent = "[Content not available]") ∧
    (∀ (fetch : String → FetchOutcome) (chg : ChangeEntry) (e : String),
      chg.changeType = 3 → chg.originalObjectId.isSome = true →
      fetch (chg.originalObjectId.getD "") = FetchOutcome.streamError e →
      (enhanceChange fetch chg).diffContent = "[Content not available]") ∧
    (∀ (fetch fetch2 : String → FetchOutcome) (chg : ChangeEntry),
      (∀ oid, chg.originalObjectId = some oid ∨ chg.objectId = some oid →
        fetch oid = fetch2 oid) →
      enhanceChange fetch chg = enhanceChange fetch2 chg) ∧
    (∀ (fetch : String → FetchOutcome) (cs : List ChangeEntry),
      (enhancePullRequestChanges fetch cs).map (fun e => e.entry) = cs) := by
  refine ⟨?_, ?_, ?_, ?_, ?_⟩
  · intro fetch chg e h2 hos hcs hor
    have hc2 : chg.changeType = 2 ∧ chg.originalObjectId.isSome = true ∧
        chg.objectId.isSome = true := ⟨h2, hos, hcs⟩
    simp only [enhanceChange]
    rw [if_pos hc2]
    rcases hor with hL | hR
    · rw [hL]
      cases hfc : fetch (chg.objectId.getD "") <;>
        simp [getFileContentByObjectId]
    · rw [hR]
      cases hfo : fetch (chg.originalObjectId.getD "") <;>
        simp [getFileContentByObjectId]
  · intro fetch chg e h1 hcs hstream
    have hno2 : ¬ (chg.changeType = 2 ∧ chg.originalObjectId.isSome = true ∧
        chg.objectId.isSome = true) := by
      rintro ⟨hh, -⟩; omega
    have hc1 : chg.changeType = 1 ∧ chg.objectId.isSome = true := ⟨h1, hcs⟩
    simp only [enhanceChange]
    rw [if_neg hno2, if_pos hc1, hstream]
    rfl
  · intro fetch chg e h3 hos hstream
    have hno2 : ¬ (chg.changeType = 2 ∧ chg.originalObjectId.isSome = true ∧
        chg.objectId.isSome = true) := by
      rintro ⟨hh, -⟩; omega
    have hno1 : ¬ (chg.changeType = 1 ∧ chg.objectId.isSome = true) := by
      rintro ⟨hh, -⟩; omega
    have hc3 : chg.changeType = 3 ∧ chg.originalObjectId.isSome = true := ⟨h3, hos⟩
    simp only [enhanceChange]
    rw [if_neg hno2, if_neg hno1, if_pos hc3, hstream]
    rfl
  · intro fetch fetch2 chg hagree
    simp only [enhanceChange]
    congr 1
    by_cases h2 : chg.changeType = 2 ∧ chg.originalObjectId.isSome = true ∧
        chg.objectId.isSome = true
    · obtain ⟨oidO, hoO⟩ := Option.isSome_iff_exists.mp h2.2.1
      obtain ⟨oidC, hoC⟩ := Option.isSome_iff_exists.mp h2.2.2
      have e1 : fetch (chg.originalObjectId.getD "") =
          fetch2 (chg.originalObjectId.getD "") := by
        rw [show chg.originalObjectId.getD "" = oidO from by rw [hoO]; rfl]
        exact hagree oidO (Or.inl hoO)
      have e2 : fetch (chg.objectId.getD "") = fetch2 (chg.objectId.getD "") := by
        rw [show chg.objectId.getD "" = oidC from by rw [hoC]; rfl]
        exact hagree oidC (Or.inr hoC)
      rw [if_pos h2, if_pos h2, e1, e2]
    · rw [if_neg h2, if_neg h2]
      by_cases h1 : chg.changeType = 1 ∧ chg.objectId.isSome = true
      · obtain ⟨oidC, hoC⟩ := Option.isSome_iff_exists.mp h1.2
        have e2 : fetch (chg.objectId.getD "") = fetch2 (chg.objectId.getD "") := by
          rw [show chg.objectId.getD "" = oidC from by rw [hoC]; rfl]
          exact hagree oidC (Or.inr hoC)
        rw [if_pos h1, if_pos h1, e2]
      · rw [if_neg h1, if_neg h1]
        by_cases h3 : chg.changeType = 3 ∧ chg.originalObjectId.isSome = true
        · obtain ⟨oidO, hoO⟩ := Option.isSome_iff_exists.mp h3.2
          have e1 : fetch (chg.originalObjectId.getD "") =
              fetch2 (chg.originalObjectId.getD "") := by
            rw [show chg.originalObjectId.getD "" = oidO from by rw [hoO]; rfl]
            exact hagree oidO (Or.inl hoO)
          rw [if_pos h3, if_pos h3, e1]
        · rw [if_neg h3, if_neg h3]
  · intro fetch cs
    unfold enhancePullRequestChanges
    rw [List.map_map]
    have hcomp : ((fun e : EnhancedChange => e.entry) ∘ enhanceChange fetch) =
        fun c => c := funext (fun c => rfl)
    rw [hcomp]
    simp

/-- Closed instance of C9 amended: a Modified entry whose original blob
read rejects with a stream timeout gets the `[Diff not available]`
placeholder, by the amended theorem with its hypotheses discharged. -/
theorem C9_batch_degradation_amended_witness :
    (enhanceChange
      (fun oid => if oid == "o1" then
        FetchOutcome.streamError "Stream timeout for objectId o1"
      else FetchOutcome.content "x")
      ⟨"/m.txt", 2, some "o1", some "o2"⟩).diffContent = "[Diff not available]" :=
  C9_batch_degradation_amended.1 _ ⟨"/m.txt", 2, some "o1", some "o2"⟩
    "Stream timeout for objectId o1" rfl rfl rfl (Or.inl (by decide))
